import Mathlib

/-!
Verification of the event-ordering and capture-enrichment pipeline of
`src/main.js` (cua-data-collection-app).

The JavaScript source is shallowly embedded: module-level mutable state
becomes explicit state records, async functions become phase-split pure
functions (one Lean function per segment between `await` suspension
points), JS numbers used as machine integers become `Int`/`Nat`, and the
fractional arithmetic of the scroll aggregator uses `Rat`.
-/

namespace CuaApp

/-- Window bounds as produced by `getApplicationWindowBoundsRaw`
(`x`, `y`, `width`, `height`, plus the `windowName` and `method`
fields that `getApplicationRelativeCoordinates` copies out). -/
structure Bounds where
  x : Int
  y : Int
  width : Int
  height : Int
  windowName : String
  method : String
  deriving DecidableEq, Repr

/-- Active application window as returned by `getActiveApplicationWindow`;
only the `id` (used for identity comparison in `updateCachedAppBounds`)
and `name` are relevant to the embedded code. -/
structure AppWindow where
  id : Nat
  name : String
  deriving DecidableEq, Repr

/-- The `applicationWindow` sub-object built by
`getApplicationRelativeCoordinates` (src/main.js lines 987-994). -/
structure AppWindowInfo where
  x : Int
  y : Int
  width : Int
  height : Int
  name : String
  method : String
  deriving DecidableEq, Repr

/-- Result object of `getApplicationRelativeCoordinates`
(src/main.js lines 983-995). -/
structure AppRelative where
  x : Int
  y : Int
  isInsideApp : Bool
  applicationWindow : AppWindowInfo
  deriving DecidableEq, Repr

/-- Embedding of `getApplicationRelativeCoordinates(desktopX, desktopY,
appBounds)` (src/main.js lines 966-996).  A `null` bounds argument is
`none`; desktop coordinates are machine integers. -/
def getApplicationRelativeCoordinates (desktopX desktopY : Int)
    (appBounds : Option Bounds) : Option AppRelative :=
  match appBounds with
  | none => none
  | some b =>
    let relativeX := desktopX - b.x
    let relativeY := desktopY - b.y
    let isInsideApp : Bool :=
      decide (relativeX ≥ 0) && decide (relativeY ≥ 0) &&
      decide (relativeX ≤ b.width) && decide (relativeY ≤ b.height)
    some { x := relativeX
           y := relativeY
           isInsideApp := isInsideApp
           applicationWindow :=
             { x := b.x, y := b.y, width := b.width, height := b.height
               name := b.windowName, method := b.method } }

/-- Screenshot paths attached by `completeEvent` (src/main.js lines
877-883): one path per display plus the active-window shot. -/
structure Screenshots where
  displays : List String
  appWindow : Option String
  deriving DecidableEq, Repr

/-- Kind-specific `basicData` passed to `createEventSlot` by the input
handlers (click/drag/type/key_combination/scroll_sequence call sites). -/
inductive EventPayload where
  | click (x y : Int) (button : Nat)
  | keyPress (keycode : Nat) (key : String)
  | keyCombination (keycode : Nat) (key : String) (combination : String)
  | drag (startX startY endX endY : Int)
  | scrollSeq (x y : Int) (direction : String) (totalAmount : Rat)
      (duration : Int) (individualScrolls : Nat)
  | emptyData
  deriving DecidableEq, Repr

/-- One event slot as stored in the `eventSlots` map (src/main.js lines
834-841).  The JS object spread `id/type/timestamp/absoluteTimestamp/
_pending/...basicData` becomes explicit fields; deletion of the
`_pending` field at finalization is modelled by the field being
`false` on every logged slot. -/
structure EventSlot where
  id : Nat
  type : String
  timestamp : Rat
  absoluteTimestamp : Nat
  payload : EventPayload
  appRelative : Option AppRelative
  screenshots : Option Screenshots
  pending : Bool
  deriving DecidableEq, Repr

/-- Association list standing for the JS `Map` in `eventSlots`. -/
abbrev SlotMap := List (Nat × EventSlot)

/-- Lookup, mirroring `eventSlots.get(k)`. -/
def slotsGet : SlotMap → Nat → Option EventSlot
  | [], _ => none
  | (k, v) :: rest, key => if k = key then some v else slotsGet rest key

/-- Insert-or-replace, mirroring `eventSlots.set(k, v)`. -/
def slotsSet : SlotMap → Nat → EventSlot → SlotMap
  | [], key, v => [(key, v)]
  | (k, w) :: rest, key, v =>
    if k = key then (key, v) :: rest else (k, w) :: slotsSet rest key v

/-- Removal, mirroring `eventSlots.delete(k)`. -/
def slotsDelete : SlotMap → Nat → SlotMap
  | [], _ => []
  | (k, w) :: rest, key =>
    if k = key then slotsDelete rest key else (k, w) :: slotsDelete rest key

/-- Module-level mutable state of the ordering pipeline:
`eventCounter` (line 21), `eventSlots` (line 26), `maxCompletedEventId`
(line 27, initialized to -1), and `sessionData.events` (line 16). -/
structure RegistryState where
  eventCounter : Nat
  eventSlots : SlotMap
  maxCompletedEventId : Int
  sessionEvents : List EventSlot
  deriving DecidableEq, Repr

/-- Fresh state at session start: `eventCounter = 0` (line 1847),
empty `eventSlots`, `maxCompletedEventId = -1`, empty event log. -/
def initialRegistry : RegistryState :=
  { eventCounter := 0, eventSlots := [], maxCompletedEventId := -1
    sessionEvents := [] }

/-- Embedding of `createEventSlot(eventType, basicData)` (src/main.js
lines 828-852): allocates `eventId = eventCounter++`, stores a pending
slot, returns the new state and the assigned id.  The timestamps the
source reads from clocks are passed in as parameters. -/
def createEventSlot (s : RegistryState) (eventType : String)
    (basicData : EventPayload) (timestamp : Rat)
    (absoluteTimestamp : Nat) : RegistryState × Nat :=
  let eventId := s.eventCounter
  let eventSlot : EventSlot :=
    { id := eventId, type := eventType, timestamp := timestamp
      absoluteTimestamp := absoluteTimestamp, payload := basicData
      appRelative := none, screenshots := none, pending := true }
  ({ s with eventCounter := s.eventCounter + 1
            eventSlots := slotsSet s.eventSlots eventId eventSlot },
   eventId)

/-- One pass of the `while` loop of `finalizeCompletedEvents`
(src/main.js lines 893-919), with explicit fuel: starting at
`maxCompletedEventId + 1`, while a slot exists and is not pending, move
it to `sessionData.events`, delete it from the map and advance
`maxCompletedEventId`.  Each iteration deletes one present key, so
`eventSlots.length` fuel suffices. -/
def finalizeFuel : Nat → RegistryState → RegistryState
  | 0, s => s
  | fuel + 1, s =>
    match slotsGet s.eventSlots (s.maxCompletedEventId + 1).toNat with
    | none => s
    | some event =>
      if event.pending then s
      else
        finalizeFuel fuel
          { s with
            sessionEvents := s.sessionEvents ++ [event]
            eventSlots := slotsDelete s.eventSlots (s.maxCompletedEventId + 1).toNat
            maxCompletedEventId := s.maxCompletedEventId + 1 }

/-- Embedding of `finalizeCompletedEvents()` (src/main.js lines
893-919). -/
def finalizeCompletedEvents (s : RegistryState) : RegistryState :=
  finalizeFuel s.eventSlots.length s

/-- Field override of the JS object spread `{...slot, ...completeData}`:
a field present in the update wins, otherwise the slot's value stays. -/
def mergeField {α : Type} (new old : Option α) : Option α :=
  match new with
  | some a => some a
  | none => old

/-- Embedding of `completeEvent(eventId, completeData)` (src/main.js
lines 854-891).  The awaited render delay and screenshot capture are
suspension points whose results enter as the `shots` parameter;
`completeData` carries the only field the call sites ever pass
(`appRelative`).  Returns the new state and whether the slot was found
(`false` models the `console.error` + early return path). -/
def completeEvent (s : RegistryState) (eventId : Nat)
    (completeData : Option AppRelative) (shots : Option Screenshots) :
    RegistryState × Bool :=
  match slotsGet s.eventSlots eventId with
  | none => (s, false)
  | some eventSlot =>
    (finalizeCompletedEvents
      { s with
        eventSlots := slotsSet s.eventSlots eventId
          { eventSlot with
            appRelative := mergeField completeData eventSlot.appRelative
            screenshots := mergeField shots eventSlot.screenshots
            pending := false } },
     true)

/-- Embedding of `clearEventSlots()` (src/main.js lines 921-925). -/
def clearEventSlots (s : RegistryState) : RegistryState :=
  { s with eventSlots := [], maxCompletedEventId := -1 }

/-- Registry-relevant portion of `stopRecording()` (src/main.js lines
1951-1963): count the still-pending slots (each produces a
`console.warn`), then clear the slot system.  Returns the warned count
and the cleaned state; `sessionData.events` is not touched. -/
def stopRegistryCleanup (s : RegistryState) : Nat × RegistryState :=
  let pendingEvents := (s.eventSlots.filter (fun p => p.2.pending)).length
  (pendingEvents, clearEventSlots s)

/-- One call into the registry: a `createEventSlot` call from an input
handler, or a `completeEvent` delivery from an enrichment. -/
inductive RegOp where
  | create (eventType : String) (basicData : EventPayload)
      (timestamp : Rat) (absoluteTimestamp : Nat)
  | complete (eventId : Nat) (completeData : Option AppRelative)
      (shots : Option Screenshots)
  deriving DecidableEq, Repr

/-- Apply one registry call to the state. -/
def applyOp (s : RegistryState) : RegOp → RegistryState
  | .create t b ts ats => (createEventSlot s t b ts ats).1
  | .complete id d sh => (completeEvent s id d sh).1

/-- Run a sequence of registry calls in order. -/
def runOps (s : RegistryState) : List RegOp → RegistryState
  | [] => s
  | op :: ops => runOps (applyOp s op) ops

/-- Bookkeeping invariant of the registry state that holds between the
flush loop's runs (it is re-established by `finalizeCompletedEvents`):
the ordered log holds exactly ids `0..maxCompletedEventId` of completed
slots, `maxCompletedEventId` sits in `[-1, eventCounter)`, and every
still-held slot has an id above the flushed run, below the counter, and
stored under its own key. -/
structure RegInvCore (s : RegistryState) : Prop where
  logIds : s.sessionEvents.map (fun e => e.id) =
    List.range (s.maxCompletedEventId + 1).toNat
  logCompleted : ∀ e ∈ s.sessionEvents, e.pending = false
  hwmLB : -1 ≤ s.maxCompletedEventId
  hwmUB : s.maxCompletedEventId < (s.eventCounter : Int)
  keysAbove : ∀ p ∈ s.eventSlots,
    s.maxCompletedEventId < ((p.1 : Nat) : Int) ∧ p.1 < s.eventCounter
  slotId : ∀ p ∈ s.eventSlots, (p.2 : EventSlot).id = p.1

/-- Full invariant: the core bookkeeping plus maximality of the flushed
run — the slot at `maxCompletedEventId + 1`, if present, is pending
(the flush loop stopped at the first pending or missing id). -/
structure RegInv (s : RegistryState) extends RegInvCore s : Prop where
  nextBlocked : ∀ v,
    slotsGet s.eventSlots (s.maxCompletedEventId + 1).toNat = some v →
    v.pending = true

/-- Shared mutable state of the bounds cache (src/main.js lines 36-39):
`cachedAppBounds`, `cachedAppWindow`, `lastBoundsUpdate`, and the
single-flight guard `boundsUpdateInProgress`. -/
structure BoundsCacheState where
  cachedAppBounds : Option Bounds
  cachedAppWindow : Option AppWindow
  lastBoundsUpdate : Nat
  boundsUpdateInProgress : Bool
  deriving DecidableEq, Repr

/-- The 2-second cache TTL `BOUNDS_CACHE_DURATION` (src/main.js line 40). -/
def BOUNDS_CACHE_DURATION : Nat := 2000

/-- Freshness test `cachedAppBounds && (now - lastBoundsUpdate) <
BOUNDS_CACHE_DURATION` used at src/main.js lines 156 and 200; JS
subtraction of epoch-millisecond numbers is integer subtraction. -/
def cacheFresh (now : Nat) (st : BoundsCacheState) : Bool :=
  st.cachedAppBounds.isSome &&
    decide (((now : Int) - (st.lastBoundsUpdate : Int)) <
      (BOUNDS_CACHE_DURATION : Int))

/-- Outcome of the synchronous prefix of `updateCachedAppBounds` up to
the first suspension point (src/main.js lines 149-165): either the
function returned without resolving (in-progress skip, or fresh cache),
or it set the guard flag and suspended awaiting
`getActiveApplicationWindow()`, with `now` captured at entry. -/
inductive BeginStep where
  | done (result : Option Bounds) (st : BoundsCacheState)
  | resolveWindow (now : Nat) (st : BoundsCacheState)
  deriving DecidableEq, Repr

/-- Synchronous prefix of `updateCachedAppBounds` (src/main.js lines
149-165): an in-flight update makes the caller return the current
`cachedAppBounds` immediately (lines 150-153); a fresh cache is
returned immediately (lines 155-159); otherwise the guard flag is set
and the active-window resolution starts. -/
def updateCachedAppBounds_begin (now : Nat) (st : BoundsCacheState) :
    BeginStep :=
  if st.boundsUpdateInProgress then
    .done st.cachedAppBounds st
  else if cacheFresh now st then
    .done st.cachedAppBounds st
  else
    .resolveWindow now { st with boundsUpdateInProgress := true }

/-- Outcome of the segment after `getActiveApplicationWindow()` returns
(src/main.js lines 165-180): a return, or a suspension awaiting
`getApplicationWindowBoundsRaw(appWindow)`. -/
inductive WindowStep where
  | done (result : Option Bounds) (st : BoundsCacheState)
  | queryBounds (now : Nat) (appWindow : AppWindow) (st : BoundsCacheState)
  deriving DecidableEq, Repr

/-- Segment of `updateCachedAppBounds` after the window resolution
returns (src/main.js lines 165-180): a null window clears the flag and
returns null; the same cached window identity within the TTL
short-circuits to the cached bounds; otherwise the bounds query
starts. -/
def updateCachedAppBounds_onWindow (now : Nat)
    (appWindow? : Option AppWindow) (st : BoundsCacheState) : WindowStep :=
  match appWindow? with
  | none => .done none { st with boundsUpdateInProgress := false }
  | some appWindow =>
    if (match st.cachedAppWindow with
        | some cw => cw.id == appWindow.id
        | none => false) &&
       decide (((now : Int) - (st.lastBoundsUpdate : Int)) <
         (BOUNDS_CACHE_DURATION : Int)) then
      .done st.cachedAppBounds { st with boundsUpdateInProgress := false }
    else
      .queryBounds now appWindow st

/-- Segment of `updateCachedAppBounds` after the bounds query returns
(src/main.js lines 180-189): on truthy bounds the cache entry is
replaced (bounds, window, timestamp) before the flag clears and the
bounds are returned; on null bounds the cache is left untouched, the
flag clears, and `bounds` — null — is returned. -/
def updateCachedAppBounds_onBounds (now : Nat) (appWindow : AppWindow)
    (bounds? : Option Bounds) (st : BoundsCacheState) :
    Option Bounds × BoundsCacheState :=
  match bounds? with
  | some bounds =>
    (some bounds,
     { st with
       cachedAppBounds := some bounds
       cachedAppWindow := some appWindow
       lastBoundsUpdate := now
       boundsUpdateInProgress := false })
  | none => (none, { st with boundsUpdateInProgress := false })

/-- Catch handler of `updateCachedAppBounds` (src/main.js lines
190-194): a thrown error clears the flag and returns the stale cached
bounds if available. -/
def updateCachedAppBounds_onError (st : BoundsCacheState) :
    Option Bounds × BoundsCacheState :=
  (st.cachedAppBounds, { st with boundsUpdateInProgress := false })

/-- Result of one uninterleaved `updateCachedAppBounds` /
`getCachedAppBounds` call, with counts of underlying
active-window resolutions and bounds queries performed. -/
structure BoundsRun where
  result : Option Bounds
  state : BoundsCacheState
  windowQueries : Nat
  boundsQueries : Nat
  deriving DecidableEq, Repr

/-- One full `updateCachedAppBounds` call running without interleaving,
its collaborators answered by the `appWindow?` and `queryBounds`
oracles (the non-throwing paths of src/main.js lines 149-195). -/
def updateCachedAppBoundsRun (now : Nat) (appWindow? : Option AppWindow)
    (queryBounds : AppWindow → Option Bounds) (st : BoundsCacheState) :
    BoundsRun :=
  match updateCachedAppBounds_begin now st with
  | .done r st₁ => ⟨r, st₁, 0, 0⟩
  | .resolveWindow now₁ st₁ =>
    match updateCachedAppBounds_onWindow now₁ appWindow? st₁ with
    | .done r st₂ => ⟨r, st₂, 1, 0⟩
    | .queryBounds now₂ w st₂ =>
      let rs := updateCachedAppBounds_onBounds now₂ w (queryBounds w) st₂
      ⟨rs.1, rs.2, 1, 1⟩

/-- Embedding of `getCachedAppBounds()` (src/main.js lines 197-206):
return the cached bounds when fresh, otherwise fall through to
`updateCachedAppBounds`. -/
def getCachedAppBoundsRun (now : Nat) (appWindow? : Option AppWindow)
    (queryBounds : AppWindow → Option Bounds) (st : BoundsCacheState) :
    BoundsRun :=
  if cacheFresh now st then
    ⟨st.cachedAppBounds, st, 0, 0⟩
  else
    updateCachedAppBoundsRun now appWindow? queryBounds st

/-- Interleaved scenario with two concurrent GetBounds callers and an
empty cache: caller A runs `updateCachedAppBounds` to its first
suspension point (starting the resolution and setting the guard flag),
caller B then runs its own `updateCachedAppBounds` call to completion
while A's resolution is still in flight, and finally A's window
resolution (`w`) and bounds query (`b`) are delivered.  Returns
(A's result, B's result). -/
def twoCallerScenario (w : AppWindow) (b : Bounds) :
    Option Bounds × Option Bounds :=
  match updateCachedAppBounds_begin 100 ⟨none, none, 0, false⟩ with
  | .done rA _ => (rA, none)
  | .resolveWindow nowA st₁ =>
    match updateCachedAppBounds_begin 101 st₁ with
    | .resolveWindow _ st₂ => (none, st₂.cachedAppBounds)
    | .done rB st₂ =>
      match updateCachedAppBounds_onWindow nowA (some w) st₂ with
      | .done rA _ => (rA, rB)
      | .queryBounds nowA₂ w₂ st₃ =>
        ((updateCachedAppBounds_onBounds nowA₂ w₂ (some b) st₃).1, rB)

/-- N callers each running the synchronous prefix of
`updateCachedAppBounds` on the shared state in turn (a caller that
reaches the suspension point stays suspended, leaving the guard flag
set); returns how many of them started an underlying resolution. -/
def beginMany : Nat → Nat → BoundsCacheState → Nat × BoundsCacheState
  | 0, _, st => (0, st)
  | n + 1, now, st =>
    match updateCachedAppBounds_begin now st with
    | .done _ st₁ => beginMany n now st₁
    | .resolveWindow _ st₁ =>
      ((beginMany n now st₁).1 + 1, (beginMany n now st₁).2)

/-- One wheel sample as pushed into `scrollAccumulator.events`
(src/main.js lines 2406-2411).  `rotation` is the integer rotation
delivered by the uiohook wheel event. -/
structure ScrollSample where
  rotation : Int
  x : Int
  y : Int
  timestamp : Nat
  deriving DecidableEq, Repr

/-- The `scrollAccumulator` module state (src/main.js lines
2099-2106). -/
structure ScrollAccumulator where
  totalVertical : Int
  totalHorizontal : Int
  lastX : Int
  lastY : Int
  startTime : Nat
  events : List ScrollSample
  deriving DecidableEq, Repr

/-- Initial accumulator (src/main.js lines 2099-2106). -/
def initialScrollAccumulator : ScrollAccumulator := ⟨0, 0, 0, 0, 0, []⟩

/-- Accumulation step of the `wheel` handler (src/main.js lines
2395-2411): on the first sample of a burst reset the totals and record
the start time, then add the rotation, record the position and push the
sample.  The 300 ms debounce timer reset (lines 2413-2421) is carried
by `runScrollFrom`. -/
def onWheel (acc : ScrollAccumulator) (rotation x y : Int) (now : Nat) :
    ScrollAccumulator :=
  let acc₁ :=
    if acc.events.length = 0 then
      { acc with startTime := now, totalVertical := 0, totalHorizontal := 0 }
    else acc
  { acc₁ with
    totalVertical := acc₁.totalVertical + rotation
    lastX := x
    lastY := y
    events := acc₁.events ++ [⟨rotation, x, y, now⟩] }

/-- Embedding of `captureScrollSequence()` (src/main.js lines
2441-2496): an empty accumulator returns without acting; a total
magnitude below 0.5 is discarded silently (only `events` is cleared,
line 2453); otherwise one `scroll_sequence` slot is created whose
`totalAmount` is `Math.round(amount * 10) / 10` and whose
`individualScrolls` is the sample count, and the accumulator is
reset.  `now` is the clock at the debounce-timer fire. -/
def captureScrollSequence (now : Nat) (acc : ScrollAccumulator) :
    Option EventPayload × ScrollAccumulator :=
  if acc.events.length = 0 then (none, acc)
  else
    let totalRotation := acc.totalVertical
    let direction := if totalRotation > 0 then "up" else "down"
    let amount : Rat := |(totalRotation : Rat)|
    let duration : Int := (now : Int) - (acc.startTime : Int)
    if amount < 1 / 2 then
      (none, { acc with events := [] })
    else
      (some (.scrollSeq acc.lastX acc.lastY direction
          (((round (amount * 10) : Int) : Rat) / 10) duration
          acc.events.length),
       { acc with events := [], totalVertical := 0, totalHorizontal := 0 })

/-- Debounced processing of a timeline of wheel samples after the one
at `lastTime`: each sample (re)starts a 300 ms timer (src/main.js
lines 2413-2421); when the next sample arrives 300 ms or more after the
previous one the pending timer has fired first, flushing the
accumulator via `captureScrollSequence`; after the last sample the
timer fires 300 ms later.  Collects every created scroll slot. -/
def runScrollFrom (acc : ScrollAccumulator) (lastTime : Nat) :
    List ScrollSample → List EventPayload × ScrollAccumulator
  | [] =>
    ((captureScrollSequence (lastTime + 300) acc).1.toList,
     (captureScrollSequence (lastTime + 300) acc).2)
  | s :: rest =>
    if lastTime + 300 ≤ s.timestamp then
      ((captureScrollSequence (lastTime + 300) acc).1.toList ++
        (runScrollFrom
          (onWheel (captureScrollSequence (lastTime + 300) acc).2
            s.rotation s.x s.y s.timestamp) s.timestamp rest).1,
       (runScrollFrom
          (onWheel (captureScrollSequence (lastTime + 300) acc).2
            s.rotation s.x s.y s.timestamp) s.timestamp rest).2)
    else
      runScrollFrom (onWheel acc s.rotation s.x s.y s.timestamp)
        s.timestamp rest

/-- Whole-timeline run, starting from the idle accumulator. -/
def runScrollTimeline : List ScrollSample → List EventPayload
  | [] => []
  | s :: rest =>
    (runScrollFrom (onWheel initialScrollAccumulator s.rotation s.x s.y
        s.timestamp) s.timestamp rest).1

/-- Accumulation of a list of samples into the accumulator (the wheel
handler run once per sample, no timer firing in between). -/
def accumWheel (acc : ScrollAccumulator) (samples : List ScrollSample) :
    ScrollAccumulator :=
  samples.foldl (fun a s => onWheel a s.rotation s.x s.y s.timestamp) acc

/-- Decidable burst predicate: every listed sample arrives strictly
within 300 ms of the time of the previous one. -/
def withinDebounce : Nat → List ScrollSample → Bool
  | _, [] => true
  | t, s :: rest =>
    decide (s.timestamp < t + 300) && withinDebounce s.timestamp rest

/-- Timestamp of the last sample of the timeline (the time whose +300 ms
debounce fire flushes the burst). -/
def lastTimestamp (lastTime : Nat) : List ScrollSample → Nat
  | [] => lastTime
  | s :: rest => lastTimestamp s.timestamp rest

/-- Signals and shutdown commands the stop routines deliver to a
managed recording process. -/
inductive StopSignal where
  | qCommand
  | sigint
  | sigterm
  | sigkill
  deriving DecidableEq, Repr

/-- Observable outcome of one per-process stop promise: the timed
signals sent, when the process exited (none = never), and when the
promise resolved (none = never — `Stop` then never returns). -/
structure StopTrace where
  signalsSent : List (Nat × StopSignal)
  exitTime : Option Nat
  resolveTime : Option Nat
  deriving DecidableEq, Repr

/-- Minimum of two optional times (earliest of the available exit
causes). -/
def optMin : Option Nat → Option Nat → Option Nat
  | none, b => b
  | a, none => a
  | some a, some b => some (min a b)

/-- Embedding of one process's stop promise in
`stopNativeScreenRecording` (src/main.js lines 495-530).  The process
behavior `react` gives, per signal, the delay from its receipt until
the process exits (`none` = the signal is ignored).  Timeline: at t=0
`kill('SIGINT')` is sent (line 529); per Node.js ChildProcess
semantics, `subprocess.killed` becomes true as soon as `kill()`
successfully delivers any signal to the live process — it does not mean
the process exited.  If the process has not exited by t=5000 the
`forceKillTimeout` fires and sends SIGTERM (lines 502-504); the inner
3000 ms timeout then runs `if (!recordingProcess.killed)` (line 508)
at t=8000, and since `killed` has been true since t=0 the SIGKILL
branch is dead.  The promise resolves on the `exit` event only. -/
def stopNativeRecordingTrace (react : StopSignal → Option Nat) :
    StopTrace :=
  -- kill('SIGINT') on the live process succeeds: killed = true from t=0
  let killedAfterGraceful := true
  match react .sigint with
  | some d =>
    if d < 5000 then
      -- exit before the escalation timer: clearTimeout(forceKillTimeout)
      ⟨[(0, .sigint)], some d, some d⟩
    else
      ⟨[(0, .sigint), (5000, .sigterm)] ++
        (if killedAfterGraceful then [] else [(8000, .sigkill)]),
       optMin (some d) ((react .sigterm).map (fun dT => 5000 + dT)),
       optMin (some d) ((react .sigterm).map (fun dT => 5000 + dT))⟩
  | none =>
    ⟨[(0, .sigint), (5000, .sigterm)] ++
      (if killedAfterGraceful then [] else [(8000, .sigkill)]),
     (react .sigterm).map (fun dT => 5000 + dT),
     (react .sigterm).map (fun dT => 5000 + dT)⟩

/-- Embedding of one process's stop promise in
`stopDirectFFmpegRecording` (src/main.js lines 365-405).  The graceful
stop is the stdin `q` command (line 399), which is not a `kill()` call,
so `subprocess.killed` stays false until the SIGTERM at t=10000 (line
374); the inner 3000 ms timeout's `if (!ffmpegProcess.killed)` check at
t=13000 therefore finds `killed = true` (set by the successful SIGTERM
delivery) and the SIGKILL branch is dead. -/
def stopFfmpegRecordingTrace (react : StopSignal → Option Nat) :
    StopTrace :=
  match react .qCommand with
  | some d =>
    if d < 10000 then
      ⟨[(0, .qCommand)], some d, some d⟩
    else
      -- kill('SIGTERM') at t=10000 succeeds: killed = true from t=10000
      let killedAfterTerm := true
      ⟨[(0, .qCommand), (10000, .sigterm)] ++
        (if killedAfterTerm then [] else [(13000, .sigkill)]),
       optMin (some d) ((react .sigterm).map (fun dT => 10000 + dT)),
       optMin (some d) ((react .sigterm).map (fun dT => 10000 + dT))⟩
  | none =>
    let killedAfterTerm := true
    ⟨[(0, .qCommand), (10000, .sigterm)] ++
      (if killedAfterTerm then [] else [(13000, .sigkill)]),
     (react .sigterm).map (fun dT => 10000 + dT),
     (react .sigterm).map (fun dT => 10000 + dT)⟩

end CuaApp

open CuaApp

theorem slotsGet_mem {m : SlotMap} {key : Nat} {v : EventSlot}
    (h : slotsGet m key = some v) : (key, v) ∈ m := by
  induction m with
  | nil => simp [slotsGet] at h
  | cons q rest ih =>
    obtain ⟨k, w⟩ := q
    by_cases hk : k = key
    · subst hk
      simp [slotsGet] at h
      subst h
      exact List.mem_cons_self _ _
    · simp [slotsGet, hk] at h
      exact List.mem_cons_of_mem _ (ih h)

theorem mem_slotsSet {m : SlotMap} {key : Nat} {v : EventSlot}
    {p : Nat × EventSlot} (h : p ∈ slotsSet m key v) :
    p = (key, v) ∨ p ∈ m := by
  induction m with
  | nil =>
    simp [slotsSet] at h
    exact Or.inl h
  | cons q rest ih =>
    obtain ⟨k, w⟩ := q
    by_cases hk : k = key
    · subst hk
      simp [slotsSet] at h
      rcases h with h | h
      · exact Or.inl h
      · exact Or.inr (List.mem_cons_of_mem _ h)
    · simp only [slotsSet, if_neg hk, List.mem_cons] at h
      rcases h with h | h
      · exact Or.inr (by simp [h])
      · rcases ih h with h' | h'
        · exact Or.inl h'
        · exact Or.inr (List.mem_cons_of_mem _ h')

theorem slotsGet_slotsSet_self (m : SlotMap) (key : Nat) (v : EventSlot) :
    slotsGet (slotsSet m key v) key = some v := by
  induction m with
  | nil => simp [slotsSet, slotsGet]
  | cons q rest ih =>
    obtain ⟨k, w⟩ := q
    by_cases hk : k = key
    · subst hk
      simp [slotsSet, slotsGet]
    · simp [slotsSet, slotsGet, hk, ih]

theorem slotsGet_slotsSet_ne (m : SlotMap) (key : Nat) (v : EventSlot)
    (k' : Nat) (hne : key ≠ k') :
    slotsGet (slotsSet m key v) k' = slotsGet m k' := by
  induction m with
  | nil => simp [slotsSet, slotsGet, hne]
  | cons q rest ih =>
    obtain ⟨k, w⟩ := q
    by_cases hk : k = key
    · subst hk
      simp [slotsSet, slotsGet, hne]
    · simp [slotsSet, slotsGet, hk, ih]

theorem mem_slotsDelete {m : SlotMap} {key : Nat} {p : Nat × EventSlot}
    (h : p ∈ slotsDelete m key) : p ∈ m ∧ p.1 ≠ key := by
  induction m with
  | nil => simp [slotsDelete] at h
  | cons q rest ih =>
    obtain ⟨k, w⟩ := q
    by_cases hk : k = key
    · subst hk
      simp only [slotsDelete, if_pos rfl] at h
      obtain ⟨h1, h2⟩ := ih h
      exact ⟨List.mem_cons_of_mem _ h1, h2⟩
    · simp only [slotsDelete, if_neg hk, List.mem_cons] at h
      rcases h with h | h
      · subst h
        exact ⟨List.mem_cons_self _ _, hk⟩
      · obtain ⟨h1, h2⟩ := ih h
        exact ⟨List.mem_cons_of_mem _ h1, h2⟩

theorem slotsDelete_length_le (m : SlotMap) (key : Nat) :
    (slotsDelete m key).length ≤ m.length := by
  induction m with
  | nil => simp [slotsDelete]
  | cons q rest ih =>
    obtain ⟨k, w⟩ := q
    by_cases hk : k = key
    · simp only [slotsDelete, if_pos hk, List.length_cons]
      omega
    · simp only [slotsDelete, if_neg hk, List.length_cons]
      omega

theorem slotsDelete_length_lt {m : SlotMap} {key : Nat} {v : EventSlot}
    (h : slotsGet m key = some v) :
    (slotsDelete m key).length < m.length := by
  induction m with
  | nil => simp [slotsGet] at h
  | cons q rest ih =>
    obtain ⟨k, w⟩ := q
    by_cases hk : k = key
    · have hle := slotsDelete_length_le rest key
      simp only [slotsDelete, if_pos hk, List.length_cons]
      omega
    · simp only [slotsGet, if_neg hk] at h
      have := ih h
      simp only [slotsDelete, if_neg hk, List.length_cons]
      omega

theorem finalizeFuel_succ (fuel : Nat) (s : RegistryState) :
    finalizeFuel (fuel + 1) s =
      match slotsGet s.eventSlots (s.maxCompletedEventId + 1).toNat with
      | none => s
      | some event =>
        if event.pending then s
        else
          finalizeFuel fuel
            { s with
              sessionEvents := s.sessionEvents ++ [event]
              eventSlots :=
                slotsDelete s.eventSlots (s.maxCompletedEventId + 1).toNat
              maxCompletedEventId := s.maxCompletedEventId + 1 } := rfl

theorem finalizeFuel_inv :
    ∀ (fuel : Nat) (s : RegistryState), RegInvCore s →
      s.eventSlots.length ≤ fuel → RegInv (finalizeFuel fuel s) := by
  intro fuel
  induction fuel with
  | zero =>
    intro s hc hlen
    have hnil : s.eventSlots = [] :=
      List.eq_nil_of_length_eq_zero (Nat.le_zero.mp hlen)
    refine ⟨hc, ?_⟩
    intro v hv
    rw [show finalizeFuel 0 s = s from rfl, hnil] at hv
    simp [slotsGet] at hv
  | succ fuel ih =>
    intro s hc hlen
    rw [finalizeFuel_succ]
    rcases hget : slotsGet s.eventSlots (s.maxCompletedEventId + 1).toNat
      with _ | event
    · refine ⟨hc, ?_⟩
      intro v hv
      rw [hget] at hv
      exact absurd hv (by simp)
    · rcases hp : event.pending with _ | _
      · -- completed slot at the cursor: one more loop iteration
        simp only [hp, if_false, Bool.false_eq_true]
        have hmem : ((s.maxCompletedEventId + 1).toNat, event) ∈ s.eventSlots :=
          slotsGet_mem hget
        have hid : event.id = (s.maxCompletedEventId + 1).toNat :=
          hc.slotId _ hmem
        have hkey := hc.keysAbove _ hmem
        have hge : (0 : Int) ≤ s.maxCompletedEventId + 1 := by
          have := hc.hwmLB; omega
        refine ih _ ⟨?_, ?_, ?_, ?_, ?_, ?_⟩ ?_
        · show (s.sessionEvents ++ [event]).map (fun e => e.id) =
            List.range ((s.maxCompletedEventId + 1) + 1).toNat
          rw [List.map_append, hc.logIds]
          have h1 : ((s.maxCompletedEventId + 1) + 1).toNat =
              (s.maxCompletedEventId + 1).toNat + 1 := by omega
          rw [h1, List.range_succ]
          simp [hid]
        · intro e he
          rcases List.mem_append.mp he with he | he
          · exact hc.logCompleted e he
          · simp at he
            subst he
            exact hp
        · show (-1 : Int) ≤ s.maxCompletedEventId + 1
          have := hc.hwmLB
          omega
        · show s.maxCompletedEventId + 1 < (s.eventCounter : Int)
          have h2 := hkey.2
          omega
        · intro p hp2
          obtain ⟨hp1, hpne⟩ := mem_slotsDelete hp2
          have hb := hc.keysAbove p hp1
          have hb1 := hb.1
          refine ⟨?_, hb.2⟩
          show s.maxCompletedEventId + 1 < ((p.1 : Nat) : Int)
          omega
        · intro p hp2
          exact hc.slotId p (mem_slotsDelete hp2).1
        · show (slotsDelete s.eventSlots (s.maxCompletedEventId + 1).toNat).length ≤ fuel
          have := slotsDelete_length_lt hget
          omega
      · -- pending slot at the cursor: the loop stops here
        simp only [hp, if_true]
        refine ⟨hc, ?_⟩
        intro v hv
        rw [hget] at hv
        injection hv with h
        rw [← h]
        exact hp

theorem finalize_inv (s : RegistryState) (hc : RegInvCore s) :
    RegInv (finalizeCompletedEvents s) :=
  finalizeFuel_inv s.eventSlots.length s hc le_rfl

theorem completeEvent_none {s : RegistryState} {eventId : Nat}
    {d : Option AppRelative} {sh : Option Screenshots}
    (h : slotsGet s.eventSlots eventId = none) :
    completeEvent s eventId d sh = (s, false) := by
  unfold completeEvent
  rw [h]

theorem completeEvent_some {s : RegistryState} {eventId : Nat}
    {d : Option AppRelative} {sh : Option Screenshots} {old : EventSlot}
    (h : slotsGet s.eventSlots eventId = some old) :
    completeEvent s eventId d sh =
      (finalizeCompletedEvents
        { s with
          eventSlots := slotsSet s.eventSlots eventId
            { old with
              appRelative := mergeField d old.appRelative
              screenshots := mergeField sh old.screenshots
              pending := false } },
       true) := by
  unfold completeEvent
  rw [h]

theorem applyOp_inv (s : RegistryState) (op : RegOp) (h : RegInv s) :
    RegInv (applyOp s op) := by
  cases op with
  | create t b ts ats =>
    show RegInv
      { s with
        eventCounter := s.eventCounter + 1
        eventSlots := slotsSet s.eventSlots s.eventCounter
          { id := s.eventCounter, type := t, timestamp := ts
            absoluteTimestamp := ats, payload := b, appRelative := none
            screenshots := none, pending := true } }
    refine ⟨⟨h.logIds, h.logCompleted, h.hwmLB, ?_, ?_, ?_⟩, ?_⟩
    · show s.maxCompletedEventId < ((s.eventCounter + 1 : Nat) : Int)
      have := h.hwmUB
      push_cast
      push_cast at this
      omega
    · intro p hp
      rcases mem_slotsSet hp with hp | hp
      · subst hp
        have := h.hwmUB
        dsimp only
        constructor
        · exact this
        · omega
      · have hb := h.keysAbove p hp
        dsimp only
        exact ⟨hb.1, by omega⟩
    · intro p hp
      rcases mem_slotsSet hp with hp | hp
      · subst hp
        rfl
      · exact h.slotId p hp
    · intro v hv
      dsimp only at hv
      by_cases hk : s.eventCounter = (s.maxCompletedEventId + 1).toNat
      · rw [← hk] at hv
        rw [slotsGet_slotsSet_self] at hv
        injection hv with h2
        rw [← h2]
      · rw [slotsGet_slotsSet_ne _ _ _ _ hk] at hv
        exact h.nextBlocked v hv
  | complete eventId d sh =>
    show RegInv (completeEvent s eventId d sh).1
    rcases hget : slotsGet s.eventSlots eventId with _ | old
    · rw [completeEvent_none hget]
      exact h
    · rw [completeEvent_some hget]
      have hmem := slotsGet_mem hget
      have hbounds := h.keysAbove (eventId, old) hmem
      refine finalize_inv _ ⟨h.logIds, h.logCompleted, h.hwmLB, h.hwmUB, ?_, ?_⟩
      · intro p hp
        rcases mem_slotsSet hp with hp | hp
        · subst hp
          exact hbounds
        · exact h.keysAbove p hp
      · intro p hp
        rcases mem_slotsSet hp with hp | hp
        · subst hp
          exact h.slotId (eventId, old) hmem
        · exact h.slotId p hp

theorem runOps_inv_aux :
    ∀ (ops : List RegOp) (s : RegistryState), RegInv s →
      RegInv (runOps s ops) := by
  intro ops
  induction ops with
  | nil => intro s hs; exact hs
  | cons op ops ih =>
    intro s hs
    exact ih _ (applyOp_inv s op hs)

theorem initialRegistry_inv : RegInv initialRegistry := by
  refine ⟨⟨?_, ?_, ?_, ?_, ?_, ?_⟩, ?_⟩
  · decide
  · intro e he
    simp [initialRegistry] at he
  · decide
  · decide
  · intro p hp
    simp [initialRegistry] at hp
  · intro p hp
    simp [initialRegistry] at hp
  · intro v hv
    simp [initialRegistry, slotsGet] at hv

theorem runOps_inv (ops : List RegOp) : RegInv (runOps initialRegistry ops) :=
  runOps_inv_aux ops initialRegistry initialRegistry_inv

/-- C10: for every desktop point and non-null bounds, the translation
returns `x = dx - b.x`, `y = dy - b.y`, sets `isInsideApp` exactly when
both relative coordinates lie in the inclusive box
`[0, width] × [0, height]`, and returns `none` on null bounds. -/
theorem C10_relative_coordinates (dx dy : Int) (b : Bounds) :
    getApplicationRelativeCoordinates dx dy none = none ∧
    ∃ r, getApplicationRelativeCoordinates dx dy (some b) = some r ∧
      r.x = dx - b.x ∧ r.y = dy - b.y ∧
      (r.isInsideApp = true ↔
        (0 ≤ dx - b.x ∧ 0 ≤ dy - b.y ∧ dx - b.x ≤ b.width ∧ dy - b.y ≤ b.height)) := by
  refine ⟨rfl, ?_⟩
  refine ⟨_, rfl, rfl, rfl, ?_⟩
  simp only [getApplicationRelativeCoordinates, Bool.and_eq_true, decide_eq_true_eq]
  tauto

/-- C1: for every sequence of CreateSlot/Complete calls from a fresh
session, the flushed ordered log is exactly the ascending-id contiguous
run `[0..highWaterMark]` (`maxCompletedEventId`), every logged slot is
completed, and the flush loop stopped at the first pending or missing
id (the slot at `highWaterMark + 1`, if it exists, is pending). -/
theorem C1_flush_contiguous_run (ops : List RegOp) :
    ((runOps initialRegistry ops).sessionEvents.map (fun e => e.id) =
      List.range ((runOps initialRegistry ops).maxCompletedEventId + 1).toNat) ∧
    (∀ e ∈ (runOps initialRegistry ops).sessionEvents, e.pending = false) ∧
    (∀ v, slotsGet (runOps initialRegistry ops).eventSlots
        ((runOps initialRegistry ops).maxCompletedEventId + 1).toNat = some v →
      v.pending = true) := by
  have h := runOps_inv ops
  exact ⟨h.logIds, h.logCompleted, h.nextBlocked⟩

/-- C2: slots 0, 1, 2 created in order (click(10,10), key A, click(20,20))
with completions arriving 2, 0, 1: the log stays empty until 0 completes,
then holds exactly id 0; completing 1 flushes 1 and 2 in that same
single flush call, yielding ids 0, 1, 2 with each slot's creation-time
payload intact. -/
theorem C2_out_of_order_completions :
    ((runOps initialRegistry
        [.create "click" (.click 10 10 1) 0 0,
         .create "type" (.keyPress 30 "A") 1 0,
         .create "click" (.click 20 20 1) 2 0,
         .complete 2 none none]).sessionEvents = []) ∧
    ((runOps initialRegistry
        [.create "click" (.click 10 10 1) 0 0,
         .create "type" (.keyPress 30 "A") 1 0,
         .create "click" (.click 20 20 1) 2 0,
         .complete 2 none none,
         .complete 0 none none]).sessionEvents.map
        (fun e => (e.id, e.type, e.payload, e.pending)) =
      [(0, "click", .click 10 10 1, false)]) ∧
    ((runOps initialRegistry
        [.create "click" (.click 10 10 1) 0 0,
         .create "type" (.keyPress 30 "A") 1 0,
         .create "click" (.click 20 20 1) 2 0,
         .complete 2 none none,
         .complete 0 none none,
         .complete 1 none none]).sessionEvents.map
        (fun e => (e.id, e.type, e.payload, e.pending)) =
      [(0, "click", .click 10 10 1, false),
       (1, "type", .keyPress 30 "A", false),
       (2, "click", .click 20 20 1, false)]) := by
  refine ⟨rfl, rfl, rfl⟩

/-- C3: the flushed log never contains the same id twice, whatever
interleaving of creations and completions occurred, and a Complete call
for a slot that is no longer held (already flushed and removed) is
reported as an error (`found = false`) and leaves the state unchanged. -/
theorem C3_complete_idempotent (ops : List RegOp) (eventId : Nat)
    (d : Option AppRelative) (sh : Option Screenshots) :
    ((runOps initialRegistry ops).sessionEvents.map (fun e => e.id)).Nodup ∧
    (slotsGet (runOps initialRegistry ops).eventSlots eventId = none →
      completeEvent (runOps initialRegistry ops) eventId d sh =
        (runOps initialRegistry ops, false)) := by
  have h := runOps_inv ops
  constructor
  · rw [h.logIds]
    exact List.nodup_range _
  · intro hnone
    exact completeEvent_none hnone

/-- C9: stopping a session with pending slots drops them: the cleanup
counts the pending slots (each is warned about), clears the slot map
without touching the ordered log, and no pending slot's id ever sits in
the flushed log, so the completed, already-flushed slots keep their
order and contents. -/
theorem C9_pending_dropped_at_stop (ops : List RegOp) :
    ((stopRegistryCleanup (runOps initialRegistry ops)).2.sessionEvents =
      (runOps initialRegistry ops).sessionEvents) ∧
    ((stopRegistryCleanup (runOps initialRegistry ops)).1 =
      ((runOps initialRegistry ops).eventSlots.filter
        (fun p => p.2.pending)).length) ∧
    (∀ p ∈ (runOps initialRegistry ops).eventSlots, p.2.pending = true →
      (p.1 : Nat) ∉ (runOps initialRegistry ops).sessionEvents.map
        (fun e => e.id)) ∧
    ((stopRegistryCleanup (runOps initialRegistry ops)).2.eventSlots = []) := by
  have h := runOps_inv ops
  refine ⟨rfl, rfl, ?_, rfl⟩
  intro p hp _
  rw [h.logIds]
  intro hmem
  rw [List.mem_range] at hmem
  have hb := (h.keysAbove p hp).1
  have hlb := h.hwmLB
  omega

theorem updateCachedAppBounds_begin_inflight (now : Nat)
    (st : BoundsCacheState) (h : st.boundsUpdateInProgress = true) :
    updateCachedAppBounds_begin now st = .done st.cachedAppBounds st := by
  simp [updateCachedAppBounds_begin, h]

theorem beginMany_inflight (n now : Nat) (st : BoundsCacheState)
    (h : st.boundsUpdateInProgress = true) :
    beginMany n now st = (0, st) := by
  induction n with
  | zero => rfl
  | succ n ih =>
    simp only [beginMany, updateCachedAppBounds_begin_inflight now st h]
    exact ih

/-- C4 (corrected): concrete refutation of "every concurrent GetBounds
caller awaits and receives the result of that same in-flight
resolution" — with an empty cache, caller A starts the resolution,
caller B arrives while it is in flight, A's resolution later yields
concrete bounds, yet B has already returned `none` (the momentary
`cachedAppBounds`), not the in-flight result. -/
theorem C4_counterexample_no_awaiting :
    ((twoCallerScenario ⟨1, "Safari"⟩ ⟨0, 0, 800, 600, "Safari", "ax"⟩).1 =
      some ⟨0, 0, 800, 600, "Safari", "ax"⟩) ∧
    ((twoCallerScenario ⟨1, "Safari"⟩ ⟨0, 0, 800, 600, "Safari", "ax"⟩).2 =
      none) ∧
    (twoCallerScenario ⟨1, "Safari"⟩ ⟨0, 0, 800, 600, "Safari", "ax"⟩).2 ≠
      (twoCallerScenario ⟨1, "Safari"⟩ ⟨0, 0, 800, 600, "Safari", "ax"⟩).1 := by
  decide

/-- C4 (amended): the single-flight guard holds — a caller arriving
while a resolution is in flight starts no second resolution and returns
the momentary `cachedAppBounds` immediately (without awaiting), and N
concurrent callers arriving with no cached value start exactly one
underlying resolution, so two resolutions are never in flight at
once. -/
theorem C4_single_flight (now : Nat) (st stE : BoundsCacheState) (n : Nat)
    (hflag : st.boundsUpdateInProgress = true)
    (hE1 : stE.cachedAppBounds = none)
    (hE2 : stE.boundsUpdateInProgress = false)
    (hn : 1 ≤ n) :
    (updateCachedAppBounds_begin now st = .done st.cachedAppBounds st) ∧
    ((beginMany n now stE).1 = 1) := by
  constructor
  · exact updateCachedAppBounds_begin_inflight now st hflag
  · obtain ⟨m, rfl⟩ : ∃ m, n = m + 1 := ⟨n - 1, by omega⟩
    have hbegin : updateCachedAppBounds_begin now stE =
        .resolveWindow now { stE with boundsUpdateInProgress := true } := by
      simp [updateCachedAppBounds_begin, hE2, cacheFresh, hE1]
    simp only [beginMany, hbegin]
    rw [beginMany_inflight m now _ rfl]

/-- Witness for C4_single_flight at a concrete state. -/
theorem C4_single_flight_witness :
    (updateCachedAppBounds_begin 500 ⟨none, none, 0, true⟩ =
      .done none ⟨none, none, 0, true⟩) ∧
    ((beginMany 3 500 ⟨none, none, 0, false⟩).1 = 1) :=
  C4_single_flight 500 ⟨none, none, 0, true⟩ ⟨none, none, 0, false⟩ 3
    rfl rfl rfl (by decide)

/-- C5: a GetBounds call made while a cached value exists whose age is
strictly below the 2000 ms TTL returns the cached bounds immediately
and performs no window resolution and no bounds query. -/
theorem C5_ttl_fresh_no_query (now : Nat) (st : BoundsCacheState)
    (b : Bounds) (appWindow? : Option AppWindow)
    (oracle : AppWindow → Option Bounds)
    (hb : st.cachedAppBounds = some b)
    (hfresh : ((now : Int) - (st.lastBoundsUpdate : Int)) <
      (BOUNDS_CACHE_DURATION : Int)) :
    getCachedAppBoundsRun now appWindow? oracle st = ⟨some b, st, 0, 0⟩ := by
  have hc : cacheFresh now st = true := by
    simp [cacheFresh, hb, hfresh]
  simp [getCachedAppBoundsRun, hc, hb]

/-- Witness for C5_ttl_fresh_no_query at a concrete fresh cache. -/
theorem C5_ttl_fresh_no_query_witness :
    getCachedAppBoundsRun 1000 none (fun _ => none)
      ⟨some ⟨0, 0, 800, 600, "Safari", "ax"⟩, none, 0, false⟩ =
    ⟨some ⟨0, 0, 800, 600, "Safari", "ax"⟩,
     ⟨some ⟨0, 0, 800, 600, "Safari", "ax"⟩, none, 0, false⟩, 0, 0⟩ :=
  C5_ttl_fresh_no_query 1000 _ _ none _ rfl (by decide)

/-- C6 (corrected): concrete refutation of "the caller is given nil only
if no previous cache entry exists" — a stale cache entry exists, the
active window has changed, the fresh bounds query returns null: the
previous entry is preserved but the caller still receives `none`. -/
theorem C6_counterexample_nil_despite_cache :
    ((updateCachedAppBoundsRun 5000 (some ⟨2, "Notes"⟩) (fun _ => none)
        ⟨some ⟨0, 0, 800, 600, "Safari", "ax"⟩, some ⟨1, "Safari"⟩, 0,
         false⟩).result = none) ∧
    ((updateCachedAppBoundsRun 5000 (some ⟨2, "Notes"⟩) (fun _ => none)
        ⟨some ⟨0, 0, 800, 600, "Safari", "ax"⟩, some ⟨1, "Safari"⟩, 0,
         false⟩).state.cachedAppBounds =
      some ⟨0, 0, 800, 600, "Safari", "ax"⟩) := by
  decide

/-- C6 (amended): when the fresh bounds query returns null, the cached
entry (bounds, window identity, timestamp) is preserved unchanged but
the caller receives `none` regardless of whether a previous entry
exists; the stale cached value reaches the caller only on the
thrown-error path; on success the cache entry is replaced atomically
with the new bounds, identity, and timestamp. -/
theorem C6_failure_preserves_cache (now : Nat) (w : AppWindow) (b : Bounds)
    (st : BoundsCacheState) :
    (updateCachedAppBounds_onBounds now w none st =
      (none, { st with boundsUpdateInProgress := false })) ∧
    (updateCachedAppBounds_onError st =
      (st.cachedAppBounds, { st with boundsUpdateInProgress := false })) ∧
    (updateCachedAppBounds_onBounds now w (some b) st =
      (some b, ⟨some b, some w, now, false⟩)) :=
  ⟨rfl, rfl, rfl⟩

theorem onWheel_events (acc : ScrollAccumulator) (r x y : Int) (now : Nat) :
    (onWheel acc r x y now).events = acc.events ++ [⟨r, x, y, now⟩] := by
  by_cases h : acc.events.length = 0 <;> simp [onWheel, h]

theorem onWheel_totalVertical (acc : ScrollAccumulator) (r x y : Int)
    (now : Nat) (hne : acc.events ≠ []) :
    (onWheel acc r x y now).totalVertical = acc.totalVertical + r := by
  have h : ¬acc.events.length = 0 := by
    simp [List.length_eq_zero]
    exact hne
  simp [onWheel, h]

theorem accumWheel_spec :
    ∀ (rest : List ScrollSample) (acc : ScrollAccumulator),
      acc.events ≠ [] →
      (accumWheel acc rest).events.length =
          acc.events.length + rest.length ∧
        (accumWheel acc rest).totalVertical =
          acc.totalVertical + (rest.map (fun s => s.rotation)).sum ∧
        (accumWheel acc rest).events ≠ [] := by
  intro rest
  induction rest with
  | nil =>
    intro acc hne
    refine ⟨by simp [accumWheel], by simp [accumWheel], ?_⟩
    simpa [accumWheel] using hne
  | cons s rest ih =>
    intro acc hne
    have hev := onWheel_events acc s.rotation s.x s.y s.timestamp
    have hne' : (onWheel acc s.rotation s.x s.y s.timestamp).events ≠ [] := by
      rw [hev]
      simp
    have htv := onWheel_totalVertical acc s.rotation s.x s.y s.timestamp hne
    obtain ⟨h1, h2, h3⟩ := ih (onWheel acc s.rotation s.x s.y s.timestamp) hne'
    have hstep : accumWheel acc (s :: rest) =
        accumWheel (onWheel acc s.rotation s.x s.y s.timestamp) rest := rfl
    refine ⟨?_, ?_, by rw [hstep]; exact h3⟩
    · rw [hstep, h1, hev]
      simp
      omega
    · rw [hstep, h2, htv]
      simp
      ring

theorem runScrollFrom_cons_within (acc : ScrollAccumulator)
    (lastTime : Nat) (s : ScrollSample) (rest : List ScrollSample)
    (h : ¬lastTime + 300 ≤ s.timestamp) :
    runScrollFrom acc lastTime (s :: rest) =
      runScrollFrom (onWheel acc s.rotation s.x s.y s.timestamp)
        s.timestamp rest := by
  simp [runScrollFrom, h]

theorem runScrollFrom_burst :
    ∀ (rest : List ScrollSample) (acc : ScrollAccumulator) (lastTime : Nat),
      acc.events ≠ [] →
      withinDebounce lastTime rest = true →
      (runScrollFrom acc lastTime rest).1 =
        (captureScrollSequence (lastTimestamp lastTime rest + 300)
          (accumWheel acc rest)).1.toList := by
  intro rest
  induction rest with
  | nil =>
    intro acc lastTime hne hw
    simp [runScrollFrom, lastTimestamp, accumWheel]
  | cons s rest ih =>
    intro acc lastTime hne hw
    simp only [withinDebounce, Bool.and_eq_true, decide_eq_true_eq] at hw
    obtain ⟨hlt, hw⟩ := hw
    rw [runScrollFrom_cons_within _ _ _ _ (by omega)]
    have hne' : (onWheel acc s.rotation s.x s.y s.timestamp).events ≠ [] := by
      rw [onWheel_events]
      simp
    rw [ih _ _ hne' hw]
    rfl

theorem captureScrollSequence_zero (now : Nat) (acc : ScrollAccumulator)
    (hne : acc.events ≠ []) (hz : acc.totalVertical = 0) :
    (captureScrollSequence now acc).1 = none := by
  have h : ¬acc.events.length = 0 := by
    simp [List.length_eq_zero]
    exact hne
  simp [captureScrollSequence, h, hz]

theorem captureScrollSequence_nonzero (now : Nat) (acc : ScrollAccumulator)
    (hne : acc.events ≠ []) (hz : acc.totalVertical ≠ 0) :
    (captureScrollSequence now acc).1 =
      some (.scrollSeq acc.lastX acc.lastY
        (if acc.totalVertical > 0 then "up" else "down")
        (|(acc.totalVertical : Rat)|)
        ((now : Int) - (acc.startTime : Int)) acc.events.length) := by
  have h : ¬acc.events.length = 0 := by
    simp [List.length_eq_zero]
    exact hne
  have h1 : (1 : Int) ≤ |acc.totalVertical| := Int.one_le_abs hz
  have hge : (1 : Rat) ≤ |(acc.totalVertical : Rat)| := by
    have := h1
    push_cast at this ⊢
    exact_mod_cast this
  have hnlt : ¬|(acc.totalVertical : Rat)| < 1 / 2 := by
    intro hc
    linarith
  have hcast : |(acc.totalVertical : Rat)| * 10 =
      ((|acc.totalVertical| * 10 : Int) : Rat) := by
    push_cast
    ring
  have hround : ((round (|(acc.totalVertical : Rat)| * 10) : Int) : Rat) / 10 =
      |(acc.totalVertical : Rat)| := by
    rw [hcast, round_intCast]
    push_cast
    rw [mul_div_cancel_right₀ _ (by norm_num : (10 : Rat) ≠ 0)]
  simp only [captureScrollSequence, h, if_false, hnlt, hround]

/-- C7: a burst of wheel samples, each arriving strictly within the
300 ms debounce window of the previous one, produces exactly one
`scroll_sequence` slot once the timer fires, with `totalAmount` equal to
the absolute value of the sum of the samples' (integer) rotations and
`individualScrolls` equal to the number of samples; when that absolute
sum is below the 0.5 minimum-magnitude threshold, no slot is created at
all and the accumulator is discarded silently. -/
theorem C7_scroll_debounce_aggregation (s0 : ScrollSample)
    (rest : List ScrollSample)
    (hburst : withinDebounce s0.timestamp rest = true) :
    (|((((s0 :: rest).map (fun s => s.rotation)).sum : Int) : Rat)| < 1 / 2 →
      runScrollTimeline (s0 :: rest) = []) ∧
    ((1 : Rat) / 2 ≤
        |((((s0 :: rest).map (fun s => s.rotation)).sum : Int) : Rat)| →
      ∃ x y d dur, runScrollTimeline (s0 :: rest) =
        [.scrollSeq x y d
          (|((((s0 :: rest).map (fun s => s.rotation)).sum : Int) : Rat)|)
          dur (s0 :: rest).length]) := by
  have hrun : runScrollTimeline (s0 :: rest) =
      (runScrollFrom (onWheel initialScrollAccumulator s0.rotation s0.x s0.y
        s0.timestamp) s0.timestamp rest).1 := rfl
  set acc0 := onWheel initialScrollAccumulator s0.rotation s0.x s0.y
    s0.timestamp with hacc0
  have hev0 : acc0.events = [⟨s0.rotation, s0.x, s0.y, s0.timestamp⟩] := by
    rw [hacc0, onWheel_events]
    rfl
  have hne0 : acc0.events ≠ [] := by
    rw [hev0]
    simp
  have htv0 : acc0.totalVertical = s0.rotation := by
    simp [hacc0, onWheel, initialScrollAccumulator]
  obtain ⟨hlen, htv, hne⟩ := accumWheel_spec rest acc0 hne0
  have hflush := runScrollFrom_burst rest acc0 s0.timestamp hne0 hburst
  have hlen' : (accumWheel acc0 rest).events.length = (s0 :: rest).length := by
    rw [hlen, hev0]
    simp
    omega
  have htv' : (accumWheel acc0 rest).totalVertical =
      ((s0 :: rest).map (fun s => s.rotation)).sum := by
    rw [htv, htv0]
    simp
  constructor
  · intro hsmall
    have hz : ((s0 :: rest).map (fun s => s.rotation)).sum = 0 := by
      by_contra hnz
      have h1 : (1 : Int) ≤ |((s0 :: rest).map (fun s => s.rotation)).sum| :=
        Int.one_le_abs hnz
      have h2 : (1 : Rat) ≤
          |((((s0 :: rest).map (fun s => s.rotation)).sum : Int) : Rat)| := by
        rw [← Int.cast_abs]
        exact_mod_cast h1
      linarith
    rw [hrun, hflush,
      captureScrollSequence_zero _ _ hne (htv'.trans hz)]
    rfl
  · intro hbig
    have hnz : ((s0 :: rest).map (fun s => s.rotation)).sum ≠ 0 := by
      intro h0
      rw [h0] at hbig
      norm_num at hbig
    rw [hrun, hflush,
      captureScrollSequence_nonzero _ _ hne (by rw [htv']; exact hnz)]
    rw [htv', hlen']
    exact ⟨_, _, _, _, rfl⟩

/-- Witness for C7: the two-sample burst at t=1000 and t=1100 (within
300 ms) with rotations 3 and 2 yields one slot with totalAmount = 5 and
individualScrolls = 2. -/
theorem C7_scroll_debounce_aggregation_witness :
    ∃ x y d dur,
      runScrollTimeline
        ([⟨3, 100, 200, 1000⟩, ⟨2, 100, 210, 1100⟩] : List ScrollSample) =
      [.scrollSeq x y d
        (|((((([⟨3, 100, 200, 1000⟩, ⟨2, 100, 210, 1100⟩] :
            List ScrollSample)).map (fun s => s.rotation)).sum : Int) : Rat)|)
        dur
        (([⟨3, 100, 200, 1000⟩, ⟨2, 100, 210, 1100⟩] :
          List ScrollSample)).length] :=
  (C7_scroll_debounce_aggregation ⟨3, 100, 200, 1000⟩
    [⟨2, 100, 210, 1100⟩] (by decide)).2 (by norm_num)

/-- C8: a managed recording process that ignores every stop signal
refutes the escalation contract in the code as written — both stop
routines send the graceful stop and then SIGTERM, but the final SIGKILL
is never sent (the guard `if (!process.killed)` is always false because
Node sets `killed` when any `kill()` succeeds), the process never
exits, and the stop promise never resolves. -/
theorem C8_escalation_never_sends_kill :
    (stopNativeRecordingTrace (fun _ => none) =
      ⟨[(0, .sigint), (5000, .sigterm)], none, none⟩) ∧
    (stopFfmpegRecordingTrace (fun _ => none) =
      ⟨[(0, .qCommand), (10000, .sigterm)], none, none⟩) ∧
    (∀ t, (t, StopSignal.sigkill) ∉
        (stopNativeRecordingTrace (fun _ => none)).signalsSent ∧
      (t, StopSignal.sigkill) ∉
        (stopFfmpegRecordingTrace (fun _ => none)).signalsSent) := by
  refine ⟨rfl, rfl, ?_⟩
  intro t
  constructor <;>
    simp [stopNativeRecordingTrace, stopFfmpegRecordingTrace]
